import Mathlib

/-
  Verification of the viewport/camera model of the tangram-es map renderer
  (src/core/src/view/view.cpp) and of the label screen-projection culling
  (Label::updateTransform), over an exact-arithmetic shallow embedding.

  Numeric model: the C++ float/double arithmetic is idealised as exact
  arithmetic in a linear ordered field K (instantiated with ℚ for concrete
  evaluation and with ℝ where trigonometric or irrational values occur).
  The libm functions cos/sin/tan/pow and the glm matrix constructors are
  external collaborators of this repository and enter the model as function
  parameters.  libm pow(2, n) at an integer argument n yields exactly the
  power of two, so it is embedded directly as (2 : K) ^ (n : ℤ); pow at a
  non-integer argument stays abstract (fpow2).  Constants declared in
  headers that are not part of the source tree (s_maxZoom, m_pixelsPerTile,
  m_initZoom, PI, TWO_PI, MapProjection::HALF_CIRCUMFERENCE) are likewise
  parameters of the model.
-/

namespace Tangram

/-- Tile identifier (util/tileID.h): integer column x, row y and zoom level z. -/
structure TileID where
  x : ℤ
  y : ℤ
  z : ℤ
deriving DecidableEq

/-- glm vec2. -/
structure Vec2 (K : Type) where
  x : K
  y : K

/-- glm vec3. -/
structure Vec3 (K : Type) where
  x : K
  y : K
  z : K

/-- glm vec4. -/
structure Vec4 (K : Type) where
  x : K
  y : K
  z : K
  w : K

/-- glm mat4, column major: c0..c3 are the columns. -/
structure Mat4 (K : Type) where
  c0 : Vec4 K
  c1 : Vec4 K
  c2 : Vec4 K
  c3 : Vec4 K

variable {K : Type} [LinearOrderedField K] [FloorRing K]

/-- glm mat4 * vec4 product. -/
def mulVec (m : Mat4 K) (v : Vec4 K) : Vec4 K :=
  ⟨m.c0.x * v.x + m.c1.x * v.y + m.c2.x * v.z + m.c3.x * v.w,
   m.c0.y * v.x + m.c1.y * v.y + m.c2.y * v.z + m.c3.y * v.w,
   m.c0.z * v.x + m.c1.z * v.y + m.c2.z * v.z + m.c3.z * v.w,
   m.c0.w * v.x + m.c1.w * v.y + m.c2.w * v.z + m.c3.w * v.w⟩

/-- The C cast (int) applied to a floating-point value: truncation toward zero. -/
def trunc (a : K) : ℤ := if 0 ≤ a then ⌊a⌋ else ⌈a⌉

/-- glm::clamp. -/
def glmClamp (x minVal maxVal : K) : K := min (max x minVal) maxVal

/-- glm::mod (GLSL semantics): x - y * floor(x / y). -/
def glmMod (x y : K) : K := x - y * ⌊x / y⌋

/-- Modelled from the spec: the projection-kind selector enum (declared in a
header that is not under src/).  The spec requires unrecognized selector
values to be handled, so besides mercator the model carries arbitrary
unrecognized codes (a C++ enum variable can hold any integral value). -/
inductive ProjectionType where
  | mercator : ProjectionType
  | unrecognized : ℤ → ProjectionType
deriving DecidableEq

/-- The concrete MapProjection implementations; only MercatorProjection exists. -/
inductive Projection where
  | mercator : Projection
deriving DecidableEq

/-- The state of a View instance (view.h data members as read and written by
view.cpp).  K is the idealised scalar type; M is the type of the glm 4×4
matrices, kept abstract because the View code only stores results of the
external glm constructors in them. -/
structure ViewState (K : Type) (M : Type) where
  m_projection : Projection
  m_pixelScale : K
  m_vpWidth : ℤ
  m_vpHeight : ℤ
  m_aspect : K
  m_posX : K
  m_posY : K
  m_posZ : K
  m_zoom : K
  m_roll : K
  m_isZoomIn : Bool
  m_dirty : Bool
  m_changed : Bool
  m_width : K
  m_height : K
  m_view : M
  m_proj : M
  m_viewProj : M
  m_visibleTiles : Finset TileID

/-- View::setMapProjection.  Both the mercator case and the default case of
the switch install a MercatorProjection; the diagnostic of the default branch
is modelled separately by setMapProjectionDiag. -/
def View.setMapProjection {M : Type} (projType : ProjectionType) (s : ViewState K M) :
    ViewState K M :=
  match projType with
  | ProjectionType.mercator => { s with m_projection := Projection.mercator, m_dirty := true }
  | ProjectionType.unrecognized _ => { s with m_projection := Projection.mercator, m_dirty := true }

/-- The diagnostic emitted by View::setMapProjection via logMsg: nothing for a
recognized selector, the error message for the default branch. -/
def setMapProjectionDiag (projType : ProjectionType) : Option String :=
  match projType with
  | ProjectionType.mercator => none
  | ProjectionType.unrecognized _ =>
      some "Error: not a valid map projection specified.\n Setting map projection to mercator by default"

/-- View::setPixelScale. -/
def View.setPixelScale {M : Type} (pixelsPerPoint : K) (s : ViewState K M) : ViewState K M :=
  { s with m_pixelScale := pixelsPerPoint, m_dirty := true }

/-- View::setSize. -/
def View.setSize {M : Type} (width height : ℤ) (s : ViewState K M) : ViewState K M :=
  { s with
    m_vpWidth := width
    m_vpHeight := height
    m_aspect := (width : K) / (height : K)
    m_dirty := true }

/-- View::setPosition. -/
def View.setPosition {M : Type} (px py : K) (s : ViewState K M) : ViewState K M :=
  { s with m_posX := px, m_posY := py, m_dirty := true }

/-- View::setZoom; s_maxZoom is a static constant declared in the missing
header and is a parameter of the model. -/
def View.setZoom {M : Type} (maxZoom z : K) (s : ViewState K M) : ViewState K M :=
  { s with m_zoom := glmClamp z 0 maxZoom, m_dirty := true }

/-- View::setRoll; TWO_PI is a constant from the missing platform header and
is a parameter of the model. -/
def View.setRoll {M : Type} (twoPi r : K) (s : ViewState K M) : ViewState K M :=
  { s with m_roll := glmMod r twoPi, m_dirty := true }

/-- View::translate. -/
def View.translate {M : Type} (dx dy : K) (s : ViewState K M) : ViewState K M :=
  View.setPosition (s.m_posX + dx) (s.m_posY + dy) s

/-- View::zoom (the zoomBy mutator). -/
def View.zoom {M : Type} (maxZoom dz : K) (s : ViewState K M) : ViewState K M :=
  let s1 := { s with m_isZoomIn := if dz > 0 then true else false }
  View.setZoom maxZoom (s1.m_zoom + dz) s1

/-- View::roll (the rollBy mutator). -/
def View.roll {M : Type} (twoPi droll : K) (s : ViewState K M) : ViewState K M :=
  View.setRoll twoPi (s.m_roll + droll) s

/-- View::getBoundsRect: ((x-hw, y-hh), (x+hw, y+hh)). -/
def View.getBoundsRect {M : Type} (s : ViewState K M) : (K × K) × (K × K) :=
  ((s.m_posX - s.m_width * (1/2), s.m_posY - s.m_height * (1/2)),
   (s.m_posX + s.m_width * (1/2), s.m_posY + s.m_height * (1/2)))

/-- The View constructor (view.cpp lines 11-22).  The initial values of the
data members before the constructor body runs come from the missing header,
so they enter as the base state s0; m_initZoom is the parameter initZoom. -/
def View.init {M : Type} (maxZoom initZoom : K) (width height : ℤ)
    (projType : ProjectionType) (s0 : ViewState K M) : ViewState K M :=
  let s1 := View.setMapProjection projType s0
  let s2 := View.setSize width height s1
  let s3 := View.setZoom maxZoom initZoom s2
  let s4 := View.setPosition 0 0 s3
  { s4 with m_changed := false, m_dirty := true }

/-- The vertical field of view set by View::updateMatrices (lines 166-174):
PI * 0.5, divided by the aspect ratio when m_width > m_height. -/
def fovyOf (pi aspect width height : K) : K :=
  if width > height then pi * (1/2) / aspect else pi * (1/2)

/-- View::updateMatrices (view.cpp lines 156-190).  ftan, fcos, fsin, fpow2
are the libm tan/cos/sin and x ↦ pow(2, x); hc is
MapProjection::HALF_CIRCUMFERENCE, ppt is m_pixelsPerTile, pi is the PI
constant; glmLookAt, glmPerspective and matMul are the external glm
operations producing values of the abstract matrix type M. -/
def View.updateMatrices {M : Type} (ftan fcos fsin fpow2 : K → K) (hc ppt pi : K)
    (glmLookAt : Vec3 K → Vec3 K → Vec3 K → M) (glmPerspective : K → K → K → K → M)
    (matMul : M → M → M) (s : ViewState K M) : ViewState K M :=
  let worldTileSize := 2 * hc * fpow2 (-s.m_zoom)
  let screenTileSize := ppt * s.m_pixelScale
  let height := (s.m_vpHeight : K) * worldTileSize / screenTileSize
  let width := height * s.m_aspect
  let fovy := fovyOf pi s.m_aspect width height
  let posZ := height * (1/2) / ftan (fovy * (1/2))
  let near := posZ / 50
  let up : Vec3 K := ⟨fcos (s.m_roll + pi * (1/2)), fsin (s.m_roll + pi * (1/2)), 0⟩
  let view := glmLookAt ⟨0, 0, 0⟩ ⟨0, 0, -1⟩ up
  let proj := glmPerspective fovy s.m_aspect near (posZ + 1)
  { s with
    m_height := height
    m_width := width
    m_posZ := posZ
    m_view := view
    m_proj := proj
    m_viewProj := matMul proj view }

/-- The world-space tile size used by View::updateTiles:
2 * HALF_CIRCUMFERENCE * pow(2, -(int)m_zoom).  pow(2, n) at the integer
argument n = -(int)m_zoom is the exact power (2 : K) ^ (n : ℤ). -/
def tileSizeOf (hc zoom : K) : K := 2 * hc * (2 : K) ^ (-(trunc zoom))

/-- The rotation-adjusted bounding-box width of View::updateTiles:
fabsf(m_height * sin_r) + fabsf(m_width * cos_r). -/
def boundWOf {M : Type} (fcos fsin : K → K) (s : ViewState K M) : K :=
  |s.m_height * fsin s.m_roll| + |s.m_width * fcos s.m_roll|

/-- The rotation-adjusted bounding-box height of View::updateTiles:
fabsf(m_width * sin_r) + fabsf(m_height * cos_r). -/
def boundHOf {M : Type} (fcos fsin : K → K) (s : ViewState K M) : K :=
  |s.m_width * fsin s.m_roll| + |s.m_height * fcos s.m_roll|

/-- vpLeftEdge = m_pos.x - width * 0.5 + HALF_CIRCUMFERENCE. -/
def leftEdgeOf {M : Type} (fcos fsin : K → K) (hc : K) (s : ViewState K M) : K :=
  s.m_posX - boundWOf fcos fsin s * (1/2) + hc

/-- vpRightEdge = vpLeftEdge + width. -/
def rightEdgeOf {M : Type} (fcos fsin : K → K) (hc : K) (s : ViewState K M) : K :=
  leftEdgeOf fcos fsin hc s + boundWOf fcos fsin s

/-- vpBottomEdge = -m_pos.y - height * 0.5 + HALF_CIRCUMFERENCE. -/
def bottomEdgeOf {M : Type} (fcos fsin : K → K) (hc : K) (s : ViewState K M) : K :=
  -s.m_posY - boundHOf fcos fsin s * (1/2) + hc

/-- vpTopEdge = vpBottomEdge + height. -/
def topEdgeOf {M : Type} (fcos fsin : K → K) (hc : K) (s : ViewState K M) : K :=
  bottomEdgeOf fcos fsin hc s + boundHOf fcos fsin s

/-- The initial column index: tileX = (int) fmax(0, vpLeftEdge * invTileSize). -/
def startTileXOf {M : Type} (fcos fsin : K → K) (hc : K) (s : ViewState K M) : ℤ :=
  trunc (max 0 (leftEdgeOf fcos fsin hc s * (1 / tileSizeOf hc s.m_zoom)))

/-- The initial row index: tileY = (int) fmax(0, vpBottomEdge * invTileSize). -/
def startTileYOf {M : Type} (fcos fsin : K → K) (hc : K) (s : ViewState K M) : ℤ :=
  trunc (max 0 (bottomEdgeOf fcos fsin hc s * (1 / tileSizeOf hc s.m_zoom)))

/-- The row index the inner loop is reset to after each column:
tileY = (int) vpBottomEdge * invTileSize, which by C precedence is
the truncation of ((int)vpBottomEdge) * invTileSize — the clamp to 0 of the
initial computation is absent and the edge itself is truncated first. -/
def resetTileYOf {M : Type} (fcos fsin : K → K) (hc : K) (s : ViewState K M) : ℤ :=
  trunc ((trunc (bottomEdgeOf fcos fsin hc s) : K) * (1 / tileSizeOf hc s.m_zoom))

/-- int maxTileIndex = pow(2, m_zoom) — note: the continuous zoom, not the
floored zoom, truncated to int. -/
def maxTileIndexOf (fpow2 : K → K) (zoom : K) : ℤ := trunc (fpow2 zoom)

/-- The inner while loop of View::updateTiles (lines 221-228), fuelled.
Arguments after the fuel are the loop-mutable tileY and y; acc is the
accumulated m_visibleTiles set. -/
def innerLoop (vpTopEdge tileSize : K) (maxTileIndex tileX iz : ℤ) :
    ℕ → ℤ → K → Finset TileID → Finset TileID
  | 0, _, _, acc => acc
  | fuel + 1, tileY, y, acc =>
      if y < vpTopEdge ∧ tileY < maxTileIndex then
        innerLoop vpTopEdge tileSize maxTileIndex tileX iz fuel (tileY + 1) (y + tileSize)
          (insert (TileID.mk tileX tileY iz) acc)
      else acc

/-- The outer while loop of View::updateTiles (lines 219-235), fuelled.
Arguments after the fuel are the loop-mutable tileX, x, tileY, y; each
iteration runs the inner loop and then resets tileY to
(int) vpBottomEdge * invTileSize and y to tileY * tileSize. -/
def outerLoop (vpRightEdge vpTopEdge vpBottomEdge tileSize invTileSize : K)
    (maxTileIndex iz : ℤ) :
    ℕ → ℤ → K → ℤ → K → Finset TileID → Finset TileID
  | 0, _, _, _, _, acc => acc
  | fuel + 1, tileX, x, tileY, y, acc =>
      if x < vpRightEdge ∧ tileX < maxTileIndex then
        let acc2 := innerLoop vpTopEdge tileSize maxTileIndex tileX iz
          ((maxTileIndex - tileY).toNat + 1) tileY y acc
        let tileY2 := trunc ((trunc vpBottomEdge : K) * invTileSize)
        outerLoop vpRightEdge vpTopEdge vpBottomEdge tileSize invTileSize maxTileIndex iz
          fuel (tileX + 1) (x + tileSize) tileY2 ((tileY2 : K) * tileSize) acc2
      else acc

/-- View::updateTiles (view.cpp lines 192-237). -/
def View.updateTiles {M : Type} (fcos fsin fpow2 : K → K) (hc : K) (s : ViewState K M) :
    ViewState K M :=
  let tileSize := tileSizeOf hc s.m_zoom
  let tileX := startTileXOf fcos fsin hc s
  let tileY := startTileYOf fcos fsin hc s
  let x := (tileX : K) * tileSize
  let y := (tileY : K) * tileSize
  let maxTileIndex := maxTileIndexOf fpow2 s.m_zoom
  let tiles := outerLoop (rightEdgeOf fcos fsin hc s) (topEdgeOf fcos fsin hc s)
    (bottomEdgeOf fcos fsin hc s) tileSize (1 / tileSize) maxTileIndex
    (trunc s.m_zoom) ((maxTileIndex - tileX).toNat + 1) tileX x tileY y ∅
  { s with m_visibleTiles := tiles }

/-- View::update (view.cpp lines 106-121). -/
def View.update {M : Type} (ftan fcos fsin fpow2 : K → K) (hc ppt pi : K)
    (glmLookAt : Vec3 K → Vec3 K → Vec3 K → M) (glmPerspective : K → K → K → K → M)
    (matMul : M → M → M) (s : ViewState K M) : ViewState K M :=
  if s.m_dirty = false then
    { s with m_changed := false }
  else
    let s1 := View.updateMatrices ftan fcos fsin fpow2 hc ppt pi glmLookAt glmPerspective matMul s
    let s2 := View.updateTiles fcos fsin fpow2 hc s1
    { s2 with m_dirty := false, m_changed := true }

/-- Label::updateTransform output: the arguments passed to
TextBuffer::transformID. -/
structure LabelScreenTransform (K : Type) where
  screenX : K
  screenY : K
  rotation : K
  alpha : K

/-- The label transform state (label.h): 2D model position, rotation, alpha. -/
structure LabelTransform (K : Type) where
  m_modelPositionX : K
  m_modelPositionY : K
  m_rotation : K
  m_alpha : K

/-- Label::updateTransform (src/unnamed/part_000 lines 17-41): project the
model position by the mvp matrix, perspective-divide, map ndc to the
top-left-origin y-down screen system, and zero the alpha for positions
outside the screen rectangle. -/
def Label.updateTransform (t : LabelTransform K) (mvp : Mat4 K)
    (screenSizeX screenSizeY : K) : LabelScreenTransform K :=
  let halfWidth := screenSizeX * (1/2)
  let halfHeight := screenSizeY * (1/2)
  let alpha := t.m_alpha
  let p0 := mulVec mvp ⟨t.m_modelPositionX, t.m_modelPositionY, 0, 1⟩
  let p := Vec4.mk (p0.x / p0.w) (p0.y / p0.w) (p0.z / p0.w) (p0.w / p0.w)
  let spx := (p.x + 1) * halfWidth
  let spy := (1 - p.y) * halfHeight
  let alpha1 := if spx > screenSizeX ∨ spx < 0 then 0 else alpha
  let alpha2 := if spy > screenSizeY ∨ spy < 0 then 0 else alpha1
  ⟨spx, spy, t.m_rotation, alpha2⟩

/-! ### Arithmetic facts about the C int cast and glm mod/clamp -/

lemma trunc_of_nonneg {a : K} (h : 0 ≤ a) : trunc a = ⌊a⌋ := if_pos h

lemma trunc_intCast (n : ℤ) : trunc (n : K) = n := by
  unfold trunc
  split_ifs <;> simp

lemma trunc_mono {a b : K} (h : a ≤ b) : trunc a ≤ trunc b := by
  unfold trunc
  split_ifs with ha hb hb
  · exact Int.floor_mono h
  · exact absurd (ha.trans h) hb
  · calc ⌈a⌉ ≤ 0 := Int.ceil_le.mpr (by exact_mod_cast le_of_not_le ha)
      _ ≤ ⌊b⌋ := Int.floor_nonneg.mpr hb
  · exact Int.ceil_mono h

lemma trunc_nonneg {a : K} (h : 0 ≤ a) : 0 ≤ trunc a := by
  rw [trunc_of_nonneg h]
  exact Int.floor_nonneg.mpr h

lemma trunc_nonpos {a : K} (h : a ≤ 0) : trunc a ≤ 0 := by
  unfold trunc
  split_ifs with ha
  · have h0 : a = 0 := le_antisymm h ha
    simp [h0]
  · exact Int.ceil_le.mpr (by exact_mod_cast h)

lemma trunc_cast_le {a : K} (h : 0 ≤ a) : (trunc a : K) ≤ a := by
  rw [trunc_of_nonneg h]
  exact_mod_cast Int.floor_le a

lemma lt_trunc_add_one {a : K} (h : 0 ≤ a) : a < (trunc a : K) + 1 := by
  rw [trunc_of_nonneg h]
  exact_mod_cast Int.lt_floor_add_one a

lemma glmMod_eq_fract_mul {x y : K} (hy : y ≠ 0) :
    glmMod x y = y * Int.fract (x / y) := by
  unfold glmMod Int.fract
  field_simp

lemma glmMod_nonneg {y : K} (hy : 0 < y) (x : K) : 0 ≤ glmMod x y := by
  rw [glmMod_eq_fract_mul hy.ne']
  exact mul_nonneg hy.le (Int.fract_nonneg _)

lemma glmMod_lt {y : K} (hy : 0 < y) (x : K) : glmMod x y < y := by
  rw [glmMod_eq_fract_mul hy.ne']
  calc y * Int.fract (x / y) < y * 1 := by
        exact mul_lt_mul_of_pos_left (Int.fract_lt_one _) hy
    _ = y := mul_one y

lemma glmMod_sub_eq (x y : K) : x - glmMod x y = y * ⌊x / y⌋ := by
  unfold glmMod
  ring

/-! ### Characterization of the tile-visibility walk -/

lemma innerLoop_mem {vpTopEdge tileSize : K} {maxTileIndex tileX iz : ℤ}
    (hts : 0 < tileSize) :
    ∀ (fuel : ℕ) (tileY : ℤ) (y : K) (acc : Finset TileID),
      y = (tileY : K) * tileSize → (maxTileIndex - tileY).toNat < fuel →
      ∀ t : TileID,
        (t ∈ innerLoop vpTopEdge tileSize maxTileIndex tileX iz fuel tileY y acc ↔
          t ∈ acc ∨ (t.x = tileX ∧ t.z = iz ∧ tileY ≤ t.y ∧ t.y < maxTileIndex ∧
            (t.y : K) * tileSize < vpTopEdge)) := by
  intro fuel
  induction fuel with
  | zero => intro tileY y acc hy hfuel t; omega
  | succ fuel ih =>
    intro tileY y acc hy hfuel t
    rw [innerLoop]
    split_ifs with hguard
    · rw [ih (tileY + 1) (y + tileSize) _ (by rw [hy]; push_cast; ring) (by omega) t]
      rw [Finset.mem_insert]
      constructor
      · rintro ((rfl | hacc) | ⟨hx1, hz1, hy1, hy2, hy3⟩)
        · exact Or.inr ⟨rfl, rfl, le_refl _, hguard.2, by rw [← hy]; exact hguard.1⟩
        · exact Or.inl hacc
        · exact Or.inr ⟨hx1, hz1, by omega, hy2, hy3⟩
      · rintro (hacc | ⟨hx1, hz1, hy1, hy2, hy3⟩)
        · exact Or.inl (Or.inr hacc)
        · rcases eq_or_lt_of_le hy1 with heq | hlt
          · left; left
            obtain ⟨tx', ty', tz'⟩ := t
            simp_all
          · exact Or.inr ⟨hx1, hz1, by omega, hy2, hy3⟩
    · simp only [not_and_or, not_lt] at hguard
      constructor
      · exact Or.inl
      · rintro (hacc | ⟨hx1, hz1, hy1, hy2, hy3⟩)
        · exact hacc
        · exfalso
          rcases hguard with htop | hmax
          · have hle : (tileY : K) * tileSize ≤ (t.y : K) * tileSize := by
              have : (tileY : K) ≤ (t.y : K) := by exact_mod_cast hy1
              exact mul_le_mul_of_nonneg_right this hts.le
            rw [← hy] at hle
            linarith
          · omega

lemma outerLoop_mem {vpRightEdge vpTopEdge vpBottomEdge tileSize invTileSize : K}
    {maxTileIndex iz : ℤ} (hts : 0 < tileSize) :
    ∀ (fuel : ℕ) (tileX : ℤ) (x : K) (tileY : ℤ) (y : K) (acc : Finset TileID),
      x = (tileX : K) * tileSize → y = (tileY : K) * tileSize →
      (maxTileIndex - tileX).toNat < fuel →
      ∀ t : TileID,
        (t ∈ outerLoop vpRightEdge vpTopEdge vpBottomEdge tileSize invTileSize
              maxTileIndex iz fuel tileX x tileY y acc ↔
          t ∈ acc ∨ (t.z = iz ∧ tileX ≤ t.x ∧ t.x < maxTileIndex ∧
            (t.x : K) * tileSize < vpRightEdge ∧
            (if t.x = tileX then tileY
             else trunc ((trunc vpBottomEdge : K) * invTileSize)) ≤ t.y ∧
            t.y < maxTileIndex ∧ (t.y : K) * tileSize < vpTopEdge)) := by
  intro fuel
  induction fuel with
  | zero => intro tileX x tileY y acc hx hy hfuel t; omega
  | succ fuel ih =>
    intro tileX x tileY y acc hx hy hfuel t
    simp only [outerLoop]
    by_cases hguard : x < vpRightEdge ∧ tileX < maxTileIndex
    · rw [if_pos hguard]
      set resetY := trunc ((trunc vpBottomEdge : K) * invTileSize) with hresetY
      rw [ih (tileX + 1) (x + tileSize) resetY ((resetY : K) * tileSize) _
          (by rw [hx]; push_cast; ring) rfl (by omega) t]
      rw [innerLoop_mem hts ((maxTileIndex - tileY).toNat + 1) tileY y acc hy (by omega) t]
      constructor
      · rintro ((hacc | ⟨hx1, hz1, hy1, hy2, hy3⟩) | ⟨hz, hc1, hc2, hc3, hrow, hy2, hy3⟩)
        · exact Or.inl hacc
        · refine Or.inr ⟨hz1, le_of_eq hx1.symm, ?_, ?_, ?_, hy2, hy3⟩
          · rw [hx1]; exact hguard.2
          · rw [hx1, ← hx]; exact hguard.1
          · rw [if_pos hx1]; exact hy1
        · simp only [ite_self] at hrow
          refine Or.inr ⟨hz, by omega, hc2, hc3, ?_, hy2, hy3⟩
          rw [if_neg (by omega)]
          exact hrow
      · rintro (hacc | ⟨hz, hx1, hx2, hx3, hrow, hy2, hy3⟩)
        · exact Or.inl (Or.inl hacc)
        · by_cases hcol : t.x = tileX
          · rw [if_pos hcol] at hrow
            exact Or.inl (Or.inr ⟨hcol, hz, hrow, hy2, hy3⟩)
          · rw [if_neg hcol] at hrow
            refine Or.inr ⟨hz, by omega, hx2, hx3, ?_, hy2, hy3⟩
            simp only [ite_self]
            exact hrow
    · rw [if_neg hguard]
      rw [not_and_or, not_lt, not_lt] at hguard
      constructor
      · exact Or.inl
      · rintro (hacc | ⟨hz, hx1, hx2, hx3, hrow, hy2, hy3⟩)
        · exact hacc
        · exfalso
          rcases hguard with hright | hmax
          · have hle : (tileX : K) * tileSize ≤ (t.x : K) * tileSize := by
              have : (tileX : K) ≤ (t.x : K) := by exact_mod_cast hx1
              exact mul_le_mul_of_nonneg_right this hts.le
            rw [← hx] at hle
            linarith
          · omega

lemma tileSizeOf_pos {hc : K} (hhc : 0 < hc) (zoom : K) : 0 < tileSizeOf hc zoom := by
  unfold tileSizeOf
  positivity

/-- Membership in the visible-tile set computed by View::updateTiles: exactly
the tiles of the grid walk, with the inner rows of the first column starting
at startTileYOf and those of every later column at resetTileYOf. -/
theorem updateTiles_mem {M : Type} (fcos fsin fpow2 : K → K) {hc : K}
    (hhc : 0 < hc) (s : ViewState K M) (t : TileID) :
    t ∈ (View.updateTiles fcos fsin fpow2 hc s).m_visibleTiles ↔
      t.z = trunc s.m_zoom ∧
      startTileXOf fcos fsin hc s ≤ t.x ∧
      t.x < maxTileIndexOf fpow2 s.m_zoom ∧
      (t.x : K) * tileSizeOf hc s.m_zoom < rightEdgeOf fcos fsin hc s ∧
      (if t.x = startTileXOf fcos fsin hc s then startTileYOf fcos fsin hc s
       else resetTileYOf fcos fsin hc s) ≤ t.y ∧
      t.y < maxTileIndexOf fpow2 s.m_zoom ∧
      (t.y : K) * tileSizeOf hc s.m_zoom < topEdgeOf fcos fsin hc s := by
  have hts := tileSizeOf_pos hhc s.m_zoom
  show t ∈ outerLoop _ _ _ _ _ _ _ _ _ _ _ _ _ ↔ _
  rw [outerLoop_mem hts _ _ _ _ _ ∅ rfl rfl (by omega) t]
  rw [show trunc ((trunc (bottomEdgeOf fcos fsin hc s) : K) *
        (1 / tileSizeOf hc s.m_zoom)) = resetTileYOf fcos fsin hc s from rfl]
  simp only [Finset.not_mem_empty, false_or]

/-! ### glm clamp facts -/

lemma glmClamp_nonneg {x maxVal : K} (hmv : 0 ≤ maxVal) : 0 ≤ glmClamp x 0 maxVal :=
  le_min (le_max_right x 0) hmv

lemma glmClamp_le {x maxVal : K} : glmClamp x 0 maxVal ≤ maxVal :=
  min_le_right _ _

lemma glmClamp_eq_self {x maxVal : K} (h0 : 0 ≤ x) (h1 : x ≤ maxVal) :
    glmClamp x 0 maxVal = x := by
  unfold glmClamp
  rw [max_eq_left h0, min_eq_left h1]

/-! ### Concrete fixtures used by the closed witness theorems -/

/-- A concrete rational view state used by witnesses. -/
def testStateQ : ViewState ℚ Unit where
  m_projection := Projection.mercator
  m_pixelScale := 1
  m_vpWidth := 2
  m_vpHeight := 2
  m_aspect := 1
  m_posX := 0
  m_posY := 0
  m_posZ := 0
  m_zoom := 1
  m_roll := 0
  m_isZoomIn := false
  m_dirty := true
  m_changed := false
  m_width := 1
  m_height := 1
  m_view := ()
  m_proj := ()
  m_viewProj := ()
  m_visibleTiles := ∅

/-- A concrete real view state used by witnesses. -/
def testStateR : ViewState ℝ Unit where
  m_projection := Projection.mercator
  m_pixelScale := 1
  m_vpWidth := 2
  m_vpHeight := 2
  m_aspect := 1
  m_posX := 0
  m_posY := 0
  m_posZ := 0
  m_zoom := 1
  m_roll := 0
  m_isZoomIn := false
  m_dirty := true
  m_changed := false
  m_width := 1
  m_height := 1
  m_view := ()
  m_proj := ()
  m_viewProj := ()
  m_visibleTiles := ∅

/-- Trivial scalar function instantiating the abstract libm parameters in
witnesses whose property does not depend on them. -/
def qzero : ℚ → ℚ := fun _ => 0

/-- Trivial glm lookAt instantiation for witnesses (matrix type Unit). -/
def unitLookAt : Vec3 ℚ → Vec3 ℚ → Vec3 ℚ → Unit := fun _ _ _ => ()

/-- Trivial glm perspective instantiation for witnesses. -/
def unitPerspective : ℚ → ℚ → ℚ → ℚ → Unit := fun _ _ _ _ => ()

/-- Trivial matrix product instantiation for witnesses. -/
def unitMatMul : Unit → Unit → Unit := fun _ _ => ()

/-! ### Claim theorems -/

/-- Claim C3: on a dirty viewport, update() recomputes (matrices then tiles)
and reports changed with the dirty flag cleared; a second update() with no
intervening mutation is a no-op that leaves every field unchanged except for
clearing the changed flag — the recompute runs exactly once. -/
theorem c3_update_runs_once {M : Type} (ftan fcos fsin fpow2 : K → K) (hc ppt pi : K)
    (glmLookAt : Vec3 K → Vec3 K → Vec3 K → M) (glmPerspective : K → K → K → K → M)
    (matMul : M → M → M) (s u : ViewState K M) (hdirty : s.m_dirty = true)
    (hu : u = View.update ftan fcos fsin fpow2 hc ppt pi glmLookAt glmPerspective matMul s) :
    u.m_changed = true ∧ u.m_dirty = false ∧
    u.m_visibleTiles = (View.updateTiles fcos fsin fpow2 hc
      (View.updateMatrices ftan fcos fsin fpow2 hc ppt pi glmLookAt glmPerspective
        matMul s)).m_visibleTiles ∧
    View.update ftan fcos fsin fpow2 hc ppt pi glmLookAt glmPerspective matMul u =
      { u with m_changed := false } := by
  subst hu
  refine ⟨?_, ?_, ?_, ?_⟩ <;> simp [View.update, hdirty]

/-- Witness for C3 at a concrete dirty rational state. -/
theorem c3_update_runs_once_witness :
    testStateQ.m_dirty = true ∧
    ((View.update qzero qzero qzero qzero 1 1 1 unitLookAt unitPerspective unitMatMul
        testStateQ).m_changed = true ∧
      (View.update qzero qzero qzero qzero 1 1 1 unitLookAt unitPerspective unitMatMul
        testStateQ).m_dirty = false ∧
      (View.update qzero qzero qzero qzero 1 1 1 unitLookAt unitPerspective unitMatMul
        testStateQ).m_visibleTiles = (View.updateTiles qzero qzero qzero 1
          (View.updateMatrices qzero qzero qzero qzero 1 1 1 unitLookAt unitPerspective
            unitMatMul testStateQ)).m_visibleTiles ∧
      View.update qzero qzero qzero qzero 1 1 1 unitLookAt unitPerspective unitMatMul
          (View.update qzero qzero qzero qzero 1 1 1 unitLookAt unitPerspective unitMatMul
            testStateQ) =
        { View.update qzero qzero qzero qzero 1 1 1 unitLookAt unitPerspective unitMatMul
            testStateQ with m_changed := false }) :=
  ⟨rfl, c3_update_runs_once qzero qzero qzero qzero 1 1 1 unitLookAt unitPerspective
    unitMatMul testStateQ _ rfl rfl⟩

/-- Claim C5: updateMatrices computes worldHeight = screenHeightPx * tileSize
/ (pixelsPerTile * pixelDensity) with tileSize = 2 * halfCircumference *
2^(-zoom), worldWidth = worldHeight * aspect, a vertical field of view of
pi/2 divided by the aspect ratio exactly when worldWidth > worldHeight,
camera distance z = worldHeight / 2 / tan(fovy/2), and passes near = z/50 and
far = z+1 to the perspective projection. -/
theorem c5_matrix_derivation {M : Type} (ftan fcos fsin fpow2 : K → K) (hc ppt pi : K)
    (glmLookAt : Vec3 K → Vec3 K → Vec3 K → M) (glmPerspective : K → K → K → K → M)
    (matMul : M → M → M) (s s1 : ViewState K M)
    (hs1 : s1 = View.updateMatrices ftan fcos fsin fpow2 hc ppt pi glmLookAt glmPerspective
      matMul s) :
    s1.m_height = (s.m_vpHeight : K) * (2 * hc * fpow2 (-s.m_zoom)) / (ppt * s.m_pixelScale) ∧
    s1.m_width = s1.m_height * s.m_aspect ∧
    s1.m_posZ = s1.m_height / 2 / ftan (fovyOf pi s.m_aspect s1.m_width s1.m_height / 2) ∧
    s1.m_proj = glmPerspective (fovyOf pi s.m_aspect s1.m_width s1.m_height) s.m_aspect
      (s1.m_posZ / 50) (s1.m_posZ + 1) ∧
    (s1.m_width > s1.m_height →
      fovyOf pi s.m_aspect s1.m_width s1.m_height = pi / 2 / s.m_aspect) ∧
    (¬s1.m_width > s1.m_height → fovyOf pi s.m_aspect s1.m_width s1.m_height = pi / 2) := by
  obtain ⟨hh, hw, hz, hp⟩ :
      s1.m_height =
        (s.m_vpHeight : K) * (2 * hc * fpow2 (-s.m_zoom)) / (ppt * s.m_pixelScale) ∧
      s1.m_width = s1.m_height * s.m_aspect ∧
      s1.m_posZ = s1.m_height * (1/2) /
        ftan (fovyOf pi s.m_aspect s1.m_width s1.m_height * (1/2)) ∧
      s1.m_proj = glmPerspective (fovyOf pi s.m_aspect s1.m_width s1.m_height) s.m_aspect
        (s1.m_posZ / 50) (s1.m_posZ + 1) := by
    subst hs1
    exact ⟨rfl, rfl, rfl, rfl⟩
  refine ⟨hh, hw, ?_, hp, ?_, ?_⟩
  · rw [hz, mul_one_div, mul_one_div]
  · intro hgt
    simp only [fovyOf]
    rw [if_pos hgt, mul_one_div]
  · intro hle
    simp only [fovyOf]
    rw [if_neg hle, mul_one_div]

/-- Witness for C5 at a concrete rational state. -/
theorem c5_matrix_derivation_witness :
    (View.updateMatrices qzero qzero qzero qzero 1 1 1 unitLookAt unitPerspective unitMatMul
        testStateQ).m_height =
      (testStateQ.m_vpHeight : ℚ) * (2 * 1 * qzero (-testStateQ.m_zoom)) /
        (1 * testStateQ.m_pixelScale) ∧
    (View.updateMatrices qzero qzero qzero qzero 1 1 1 unitLookAt unitPerspective unitMatMul
        testStateQ).m_posZ =
      (View.updateMatrices qzero qzero qzero qzero 1 1 1 unitLookAt unitPerspective unitMatMul
          testStateQ).m_height / 2 /
        qzero (fovyOf 1 testStateQ.m_aspect
          (View.updateMatrices qzero qzero qzero qzero 1 1 1 unitLookAt unitPerspective
            unitMatMul testStateQ).m_width
          (View.updateMatrices qzero qzero qzero qzero 1 1 1 unitLookAt unitPerspective
            unitMatMul testStateQ).m_height / 2) :=
  ⟨(c5_matrix_derivation qzero qzero qzero qzero 1 1 1 unitLookAt unitPerspective unitMatMul
      testStateQ _ rfl).1,
   (c5_matrix_derivation qzero qzero qzero qzero 1 1 1 unitLookAt unitPerspective unitMatMul
      testStateQ _ rfl).2.2.1⟩

/-- Claim C6: every zoom mutation stores a zoom clamped into [0, maxZoom]
(equal to the requested value when already in range), and every roll mutation
stores a roll in [0, 2*pi) congruent to the requested value modulo 2*pi. -/
theorem c6_mutation_invariants {M : Type} (maxZoom : ℝ) (hmz : 0 ≤ maxZoom)
    (z r dz dr : ℝ) (s : ViewState ℝ M) :
    (0 ≤ (View.setZoom maxZoom z s).m_zoom ∧ (View.setZoom maxZoom z s).m_zoom ≤ maxZoom) ∧
    (0 ≤ z → z ≤ maxZoom → (View.setZoom maxZoom z s).m_zoom = z) ∧
    (0 ≤ (View.zoom maxZoom dz s).m_zoom ∧ (View.zoom maxZoom dz s).m_zoom ≤ maxZoom) ∧
    (0 ≤ (View.setRoll (2 * Real.pi) r s).m_roll ∧
      (View.setRoll (2 * Real.pi) r s).m_roll < 2 * Real.pi) ∧
    (∃ k : ℤ, r - (View.setRoll (2 * Real.pi) r s).m_roll = 2 * Real.pi * k) ∧
    (0 ≤ (View.roll (2 * Real.pi) dr s).m_roll ∧
      (View.roll (2 * Real.pi) dr s).m_roll < 2 * Real.pi) ∧
    (∃ k : ℤ, s.m_roll + dr - (View.roll (2 * Real.pi) dr s).m_roll = 2 * Real.pi * k) := by
  have h2pi : (0:ℝ) < 2 * Real.pi := Real.two_pi_pos
  refine ⟨⟨glmClamp_nonneg hmz, glmClamp_le⟩, ?_, ⟨glmClamp_nonneg hmz, glmClamp_le⟩,
    ⟨glmMod_nonneg h2pi r, glmMod_lt h2pi r⟩, ⟨⌊r / (2 * Real.pi)⌋, ?_⟩,
    ⟨glmMod_nonneg h2pi (s.m_roll + dr), glmMod_lt h2pi (s.m_roll + dr)⟩,
    ⟨⌊(s.m_roll + dr) / (2 * Real.pi)⌋, ?_⟩⟩
  · intro h0 h1
    exact glmClamp_eq_self h0 h1
  · exact glmMod_sub_eq r (2 * Real.pi)
  · exact glmMod_sub_eq (s.m_roll + dr) (2 * Real.pi)

/-- Witness for C6 at maxZoom = 18, z = 5, r = 7. -/
theorem c6_mutation_invariants_witness :
    (0:ℝ) ≤ 18 ∧
    ((0 ≤ (View.setZoom (18:ℝ) 5 testStateR).m_zoom ∧
        (View.setZoom (18:ℝ) 5 testStateR).m_zoom ≤ 18) ∧
      (0 ≤ (5:ℝ) → (5:ℝ) ≤ 18 → (View.setZoom (18:ℝ) 5 testStateR).m_zoom = 5) ∧
      (0 ≤ (View.zoom (18:ℝ) 1 testStateR).m_zoom ∧
        (View.zoom (18:ℝ) 1 testStateR).m_zoom ≤ 18) ∧
      (0 ≤ (View.setRoll (2 * Real.pi) 7 testStateR).m_roll ∧
        (View.setRoll (2 * Real.pi) 7 testStateR).m_roll < 2 * Real.pi) ∧
      (∃ k : ℤ, (7:ℝ) - (View.setRoll (2 * Real.pi) 7 testStateR).m_roll = 2 * Real.pi * k) ∧
      (0 ≤ (View.roll (2 * Real.pi) 2 testStateR).m_roll ∧
        (View.roll (2 * Real.pi) 2 testStateR).m_roll < 2 * Real.pi) ∧
      (∃ k : ℤ, testStateR.m_roll + 2 - (View.roll (2 * Real.pi) 2 testStateR).m_roll =
        2 * Real.pi * k)) :=
  ⟨by norm_num, c6_mutation_invariants 18 (by norm_num) 5 7 1 2 testStateR⟩

/-- The frame property of a mutator: the derived matrices, the derived world
extents, the derived camera distance and the visible-tile set are untouched,
and the instance is marked dirty. -/
def PreservesDerived {M : Type} (s u : ViewState K M) : Prop :=
  u.m_visibleTiles = s.m_visibleTiles ∧ u.m_view = s.m_view ∧ u.m_proj = s.m_proj ∧
  u.m_viewProj = s.m_viewProj ∧ u.m_width = s.m_width ∧ u.m_height = s.m_height ∧
  u.m_posZ = s.m_posZ ∧ u.m_dirty = true

/-- Claim C7: no mutator recomputes the matrices, the world extents, the
camera distance or the visible-tile set; every mutator only updates its own
state fields and marks the instance dirty. -/
theorem c7_mutators_defer_recompute {M : Type} (pt : ProjectionType) (px : K) (w h : ℤ)
    (x y maxZoom z twoPi r dx dy dz dr : K) (s : ViewState K M) :
    PreservesDerived s (View.setMapProjection pt s) ∧
    PreservesDerived s (View.setPixelScale px s) ∧
    PreservesDerived s (View.setSize w h s) ∧
    PreservesDerived s (View.setPosition x y s) ∧
    PreservesDerived s (View.setZoom maxZoom z s) ∧
    PreservesDerived s (View.setRoll twoPi r s) ∧
    PreservesDerived s (View.translate dx dy s) ∧
    PreservesDerived s (View.zoom maxZoom dz s) ∧
    PreservesDerived s (View.roll twoPi dr s) := by
  refine ⟨?_, ?_, ?_, ?_, ?_, ?_, ?_, ?_, ?_⟩
  · cases pt <;> exact ⟨rfl, rfl, rfl, rfl, rfl, rfl, rfl, rfl⟩
  all_goals exact ⟨rfl, rfl, rfl, rfl, rfl, rfl, rfl, rfl⟩

/-- Claim C8: selecting any projection kind never fails: the concrete
projection installed is always the mercator implementation, the viewport is
left dirty (usable), a diagnostic is emitted exactly for unrecognized kinds,
and the same holds at construction. -/
theorem c8_projection_fallback {M : Type} (pt : ProjectionType) (s : ViewState K M)
    (maxZoom initZoom : K) (w h : ℤ) (s0 : ViewState K M) :
    (View.setMapProjection pt s).m_projection = Projection.mercator ∧
    (View.setMapProjection pt s).m_dirty = true ∧
    (pt ≠ ProjectionType.mercator → (setMapProjectionDiag pt).isSome = true) ∧
    (View.init maxZoom initZoom w h pt s0).m_projection = Projection.mercator ∧
    (View.init maxZoom initZoom w h pt s0).m_dirty = true := by
  cases pt <;>
    simp [View.setMapProjection, setMapProjectionDiag, View.init, View.setSize,
      View.setZoom, View.setPosition]

/-- Witness for C8 at the concrete unrecognized selector 7. -/
theorem c8_projection_fallback_witness :
    (View.setMapProjection (ProjectionType.unrecognized 7) testStateQ).m_projection =
      Projection.mercator ∧
    (setMapProjectionDiag (ProjectionType.unrecognized 7)).isSome = true ∧
    (View.init (18:ℚ) 3 800 600 (ProjectionType.unrecognized 7) testStateQ).m_projection =
      Projection.mercator :=
  ⟨(c8_projection_fallback (ProjectionType.unrecognized 7) testStateQ 18 3 800 600
      testStateQ).1,
   (c8_projection_fallback (ProjectionType.unrecognized 7) testStateQ 18 3 800 600
      testStateQ).2.2.1 (by decide),
   (c8_projection_fallback (ProjectionType.unrecognized 7) testStateQ 18 3 800 600
      testStateQ).2.2.2.1⟩

/-- Claim C9: label screen-projection culling is boundary-inclusive: a label
whose projected screen position lies outside [0,width] × [0,height] gets
alpha 0, and one whose position lies inside the rectangle, the edges
included, keeps its alpha. -/
theorem c9_label_culling (t : LabelTransform K) (mvp : Mat4 K) (w h : K) :
    ((Label.updateTransform t mvp w h).screenX < 0 ∨
     (Label.updateTransform t mvp w h).screenX > w ∨
     (Label.updateTransform t mvp w h).screenY < 0 ∨
     (Label.updateTransform t mvp w h).screenY > h →
      (Label.updateTransform t mvp w h).alpha = 0) ∧
    (0 ≤ (Label.updateTransform t mvp w h).screenX ∧
     (Label.updateTransform t mvp w h).screenX ≤ w ∧
     0 ≤ (Label.updateTransform t mvp w h).screenY ∧
     (Label.updateTransform t mvp w h).screenY ≤ h →
      (Label.updateTransform t mvp w h).alpha = t.m_alpha) := by
  simp only [Label.updateTransform]
  constructor
  · intro hout
    split_ifs with h1 h2
    · rfl
    · rfl
    · rw [not_or, not_lt, not_lt] at h1 h2
      rcases hout with hx | hx | hy | hy <;> linarith [h1.1, h1.2, h2.1, h2.2]
  · rintro ⟨hx0, hx1, hy0, hy1⟩
    split_ifs with h1 h2
    · rcases h1 with h | h <;> linarith
    · rcases h2 with h | h <;> linarith
    · rfl

/-- A concrete label transform fixture (alpha 3/4). -/
def testLabelQ : LabelTransform ℚ := ⟨0, 0, 0, 3/4⟩

/-- The identity 4×4 matrix over ℚ. -/
def idMat4Q : Mat4 ℚ := ⟨⟨1, 0, 0, 0⟩, ⟨0, 1, 0, 0⟩, ⟨0, 0, 1, 0⟩, ⟨0, 0, 0, 1⟩⟩

/-- Witness for C9: the identity mvp maps the origin to the screen center of
a 2×2 screen, which is inside the rectangle, so the alpha is kept. -/
theorem c9_label_culling_witness :
    (0 ≤ (Label.updateTransform testLabelQ idMat4Q 2 2).screenX ∧
     (Label.updateTransform testLabelQ idMat4Q 2 2).screenX ≤ 2 ∧
     0 ≤ (Label.updateTransform testLabelQ idMat4Q 2 2).screenY ∧
     (Label.updateTransform testLabelQ idMat4Q 2 2).screenY ≤ 2) ∧
    (Label.updateTransform testLabelQ idMat4Q 2 2).alpha = testLabelQ.m_alpha :=
  ⟨by norm_num [Label.updateTransform, mulVec, testLabelQ, idMat4Q],
   (c9_label_culling testLabelQ idMat4Q 2 2).2
     (by norm_num [Label.updateTransform, mulVec, testLabelQ, idMat4Q])⟩

/-- Claim C10: View::zoom records the zoom-direction hint as exactly the
strict positivity of the delta; in particular a delta of 0 records zoom-out
(false). -/
theorem c10_zoom_direction_hint {M : Type} (maxZoom dz : K) (s : ViewState K M) :
    (View.zoom maxZoom dz s).m_isZoomIn = decide (dz > 0) ∧
    (View.zoom maxZoom 0 s).m_isZoomIn = false := by
  constructor
  · show (if dz > 0 then true else false) = decide (dz > 0)
    by_cases hpos : dz > 0
    · rw [if_pos hpos]
      exact (decide_eq_true hpos).symm
    · rw [if_neg hpos]
      exact (decide_eq_false hpos).symm
  · show (if (0:K) > 0 then true else false) = false
    rw [if_neg (lt_irrefl 0)]

/-! ### Claim C2: the inner-loop reset row -/

/-- The constant-one function: the value of libm cos at roll 0. -/
def qone : ℚ → ℚ := fun _ => 1

/-- Rational instantiation of x ↦ pow(2, x), exact at every integer argument
(the scenarios below only evaluate it at integers). -/
def qpow2 : ℚ → ℚ := fun z => 2 ^ ⌊z⌋

/-- The camera state of the C2 scenario: zoom 2, roll 0, position
(-3/8, -5/4), 2×2 viewport, pixel scale 1.  With halfCircumference 1 and
pixelsPerTile 1 the derived world extent is 1×1, the tile size is 1/2, and
the bottom edge of the bounding box lands at 7/4. -/
def c2State : ViewState ℚ Unit :=
  { testStateQ with m_zoom := 2, m_posX := -3/8, m_posY := -5/4 }

/-- The C2 scenario state after updateMatrices (the state updateTiles runs on). -/
def c2State2 : ViewState ℚ Unit :=
  View.updateMatrices qzero qone qzero qpow2 1 1 0 unitLookAt unitPerspective unitMatMul
    c2State

/-- Counterexample to claim C2: in the C2 scenario the first column starts at
row max(0, trunc(bottomEdge/tileSize)) = trunc(7/4 * 2) = 3, but the reset
performed for the later columns computes trunc(trunc(7/4) * 2) = 2, so the
second column descends to row 2 while the first column never visits it — the
columns do not all begin at the starting row of step 4. -/
theorem c2_starting_row_counterexample :
    TileID.mk 1 2 2 ∈ (View.update qzero qone qzero qpow2 1 1 0 unitLookAt unitPerspective
      unitMatMul c2State).m_visibleTiles ∧
    TileID.mk 0 2 2 ∉ (View.update qzero qone qzero qpow2 1 1 0 unitLookAt unitPerspective
      unitMatMul c2State).m_visibleTiles ∧
    startTileYOf qone qzero 1 c2State2 = 3 ∧
    resetTileYOf qone qzero 1 c2State2 = 2 := by
  have hvt : (View.update qzero qone qzero qpow2 1 1 0 unitLookAt unitPerspective
      unitMatMul c2State).m_visibleTiles =
      (View.updateTiles qone qzero qpow2 1 c2State2).m_visibleTiles := rfl
  have hzoom : c2State2.m_zoom = 2 := rfl
  have hroll : c2State2.m_roll = 0 := rfl
  have hposX : c2State2.m_posX = -3/8 := rfl
  have hposY : c2State2.m_posY = -5/4 := rfl
  have hheight : c2State2.m_height = 1 := by
    show ((2:ℤ):ℚ) * (2 * 1 * qpow2 (-c2State.m_zoom)) / (1 * c2State.m_pixelScale) = 1
    norm_num [qpow2, c2State, testStateQ]
  have hwidth : c2State2.m_width = 1 := by
    have h : c2State2.m_width = c2State2.m_height * 1 := rfl
    rw [h, hheight, mul_one]
  have hts : tileSizeOf 1 c2State2.m_zoom = 1/2 := by
    rw [hzoom]
    simp only [tileSizeOf, trunc]
    norm_num
  have hbw : boundWOf qone qzero c2State2 = 1 := by
    simp only [boundWOf, qone, qzero, hheight, hwidth]
    norm_num
  have hbh : boundHOf qone qzero c2State2 = 1 := by
    simp only [boundHOf, qone, qzero, hheight, hwidth]
    norm_num
  have hleft : leftEdgeOf qone qzero 1 c2State2 = 1/8 := by
    simp only [leftEdgeOf, hposX, hbw]
    norm_num
  have hright : rightEdgeOf qone qzero 1 c2State2 = 9/8 := by
    simp only [rightEdgeOf, hbw, hleft]
    norm_num
  have hbottom : bottomEdgeOf qone qzero 1 c2State2 = 7/4 := by
    simp only [bottomEdgeOf, hposY, hbh]
    norm_num
  have htop : topEdgeOf qone qzero 1 c2State2 = 11/4 := by
    simp only [topEdgeOf, hbottom, hbh]
    norm_num
  have hsx : startTileXOf qone qzero 1 c2State2 = 0 := by
    simp only [startTileXOf, hleft, hts]
    simp only [trunc]
    norm_num
  have hsy : startTileYOf qone qzero 1 c2State2 = 3 := by
    simp only [startTileYOf, hbottom, hts]
    simp only [trunc]
    norm_num
  have hry : resetTileYOf qone qzero 1 c2State2 = 2 := by
    simp only [resetTileYOf, hbottom, hts]
    simp only [trunc]
    norm_num
  have hmaxTI : maxTileIndexOf qpow2 c2State2.m_zoom = 4 := by
    rw [hzoom]
    simp only [maxTileIndexOf, qpow2, trunc]
    norm_num
  have hiz : trunc c2State2.m_zoom = 2 := by
    rw [hzoom]
    simp only [trunc]
    norm_num
  refine ⟨?_, ?_, hsy, hry⟩
  · rw [hvt, updateTiles_mem qone qzero qpow2 (by norm_num) c2State2]
    rw [hsx, hmaxTI, hiz, hts, hright, htop, hsy, hry]
    norm_num
  · rw [hvt, updateTiles_mem qone qzero qpow2 (by norm_num) c2State2]
    intro hmem
    obtain ⟨-, -, -, -, hrow, -, -⟩ := hmem
    rw [hsx] at hrow
    norm_num [hsy] at hrow

/-- The reset row is never above the initial starting row. -/
lemma resetTileY_le_startTileY {M : Type} (fcos fsin : K → K) {hc : K} (hhc : 0 < hc)
    (s : ViewState K M) :
    resetTileYOf fcos fsin hc s ≤ startTileYOf fcos fsin hc s := by
  unfold resetTileYOf startTileYOf
  have hinv : 0 < 1 / tileSizeOf hc s.m_zoom := by
    have := tileSizeOf_pos hhc s.m_zoom
    positivity
  by_cases hb : 0 ≤ bottomEdgeOf fcos fsin hc s
  · have h1 : (trunc (bottomEdgeOf fcos fsin hc s) : K) ≤ bottomEdgeOf fcos fsin hc s :=
      trunc_cast_le hb
    have h2 : (trunc (bottomEdgeOf fcos fsin hc s) : K) * (1 / tileSizeOf hc s.m_zoom) ≤
        bottomEdgeOf fcos fsin hc s * (1 / tileSizeOf hc s.m_zoom) :=
      mul_le_mul_of_nonneg_right h1 hinv.le
    calc trunc ((trunc (bottomEdgeOf fcos fsin hc s) : K) * (1 / tileSizeOf hc s.m_zoom)) ≤
        trunc (bottomEdgeOf fcos fsin hc s * (1 / tileSizeOf hc s.m_zoom)) := trunc_mono h2
      _ ≤ trunc (max 0 (bottomEdgeOf fcos fsin hc s * (1 / tileSizeOf hc s.m_zoom))) :=
        trunc_mono (le_max_right _ _)
  · have h1 : trunc (bottomEdgeOf fcos fsin hc s) ≤ 0 := trunc_nonpos (le_of_not_le hb)
    have h2 : (trunc (bottomEdgeOf fcos fsin hc s) : K) * (1 / tileSizeOf hc s.m_zoom) ≤ 0 :=
      mul_nonpos_of_nonpos_of_nonneg (by exact_mod_cast h1) hinv.le
    have h3 : trunc ((trunc (bottomEdgeOf fcos fsin hc s) : K) *
        (1 / tileSizeOf hc s.m_zoom)) ≤ 0 := trunc_nonpos h2
    have h4 : 0 ≤ trunc (max 0 (bottomEdgeOf fcos fsin hc s *
        (1 / tileSizeOf hc s.m_zoom))) := trunc_nonneg (le_max_left _ _)
    omega

/-- Claim C2 (amended): each outer-loop iteration after the first resets
tileY to trunc(trunc(bottomEdge) * invTileSize) — a raw truncation of the
bottom edge, without the max(0, ·) clamp of the initial computation: every
tile emitted in a column other than the first lies at or above that reset
row, every such column that emits at all begins exactly at that row, and the
reset row is never above (but can be strictly below) the first column's
starting row max(0, trunc(bottomEdge * invTileSize)). -/
theorem c2_starting_row_amended {M : Type} (fcos fsin fpow2 : K → K) {hc : K}
    (hhc : 0 < hc) (s : ViewState K M) :
    (∀ t ∈ (View.updateTiles fcos fsin fpow2 hc s).m_visibleTiles,
      t.x ≠ startTileXOf fcos fsin hc s →
        resetTileYOf fcos fsin hc s ≤ t.y ∧
        TileID.mk t.x (resetTileYOf fcos fsin hc s) (trunc s.m_zoom) ∈
          (View.updateTiles fcos fsin fpow2 hc s).m_visibleTiles) ∧
    resetTileYOf fcos fsin hc s ≤ startTileYOf fcos fsin hc s := by
  refine ⟨?_, resetTileY_le_startTileY fcos fsin hhc s⟩
  intro t ht hx
  rw [updateTiles_mem fcos fsin fpow2 hhc s t] at ht
  obtain ⟨h1, h2, h3, h4, h5, h6, h7⟩ := ht
  rw [if_neg hx] at h5
  refine ⟨h5, ?_⟩
  rw [updateTiles_mem fcos fsin fpow2 hhc s _]
  have hts := tileSizeOf_pos hhc s.m_zoom
  refine ⟨rfl, h2, h3, h4, ?_, ?_, ?_⟩
  · rw [if_neg hx]
  · exact lt_of_le_of_lt h5 h6
  · calc (resetTileYOf fcos fsin hc s : K) * tileSizeOf hc s.m_zoom ≤
        (t.y : K) * tileSizeOf hc s.m_zoom :=
        mul_le_mul_of_nonneg_right (by exact_mod_cast h5) hts.le
      _ < topEdgeOf fcos fsin hc s := h7

/-- Witness for the amended C2 at the concrete C2 scenario state. -/
theorem c2_starting_row_amended_witness :
    (0:ℚ) < 1 ∧
    resetTileYOf qone qzero 1 c2State2 ≤ startTileYOf qone qzero 1 c2State2 :=
  ⟨by norm_num,
   (c2_starting_row_amended qone qzero qpow2 (by norm_num) c2State2).2⟩

/-! ### Claim C1: tile-index bounds; real-valued scenario machinery -/

lemma one_lt_sqrt_two : (1:ℝ) < Real.sqrt 2 :=
  (Real.lt_sqrt (by norm_num)).mpr (by norm_num)

lemma sqrt_two_lt_three_halves : Real.sqrt 2 < 3/2 :=
  (Real.sqrt_lt' (by norm_num)).mpr (by norm_num)

lemma rpow_five_halves : (2:ℝ) ^ ((5/2) : ℝ) = 4 * Real.sqrt 2 := by
  have h1 : ((4:ℝ)) = (2:ℝ) ^ ((2:ℕ):ℝ) := by rw [Real.rpow_natCast]; norm_num
  rw [h1, Real.sqrt_eq_rpow, ← Real.rpow_add (by norm_num : (0:ℝ) < 2)]
  norm_num

lemma rpow_neg_five_halves : (2:ℝ) ^ (-(5/2) : ℝ) = Real.sqrt 2 / 8 := by
  have hss : Real.sqrt 2 * Real.sqrt 2 = 2 := Real.mul_self_sqrt (by norm_num)
  have hpos : (0:ℝ) < Real.sqrt 2 := Real.sqrt_pos.mpr (by norm_num)
  rw [Real.rpow_neg (by norm_num : (0:ℝ) ≤ 2), rpow_five_halves, inv_eq_one_div,
    div_eq_div_iff (by positivity : (0:ℝ) < 4 * Real.sqrt 2).ne' (by norm_num : (8:ℝ) ≠ 0)]
  linear_combination (-4) * hss

lemma floor_rpow_five_halves : ⌊(2:ℝ) ^ ((5/2) : ℝ)⌋ = 5 := by
  rw [rpow_five_halves]
  have hs : Real.sqrt 2 ^ 2 = 2 := Real.sq_sqrt (by norm_num)
  have h1 : (5:ℝ) ≤ 4 * Real.sqrt 2 := by nlinarith [Real.sqrt_nonneg 2]
  have h2 : 4 * Real.sqrt 2 < 6 := by nlinarith [Real.sqrt_nonneg 2]
  rw [Int.floor_eq_iff]
  constructor
  · exact_mod_cast h1
  · push_cast
    linarith

/-- Trivial glm lookAt instantiation over the reals (matrix type Unit). -/
def unitLookAtR : Vec3 ℝ → Vec3 ℝ → Vec3 ℝ → Unit := fun _ _ _ => ()

/-- Trivial glm perspective instantiation over the reals. -/
def unitPerspectiveR : ℝ → ℝ → ℝ → ℝ → Unit := fun _ _ _ _ => ()

/-- The camera state of the C1 scenario, up to the zoom (set to 5/2 at use
sites): roll 0, position (6, 0), 4×4 viewport, pixel scale 1.  The scenario
uses halfCircumference 4 and pixelsPerTile 1, so at zoom 5/2 the tile size
is 2, the derived world extent is 4√2 × 4√2, and maxTileIndex is
trunc(pow(2, 2.5)) = 5 although the grid at level floor(2.5) = 2 has only
2^2 = 4 valid indices. -/
def c1StateBase : ViewState ℝ Unit :=
  { testStateR with m_vpWidth := 4, m_vpHeight := 4, m_posX := 6 }

/-- Claim C1 (code bug): at the reachable camera state with zoom 5/2 (in
range for any maxZoom ≥ 2.5), roll 0 and position (6, 0), update() inserts
the tile (4, 0, 2) into the visible set: its x index violates
0 ≤ x < 2^floor(zoom) = 4, because updateTiles computes
maxTileIndex = (int)pow(2, m_zoom) = 5 from the continuous zoom while the
tiles are emitted at level (int)m_zoom = 2, whose grid has only 4 columns. -/
theorem c1_tile_bounds_failing_input :
    TileID.mk 4 0 2 ∈ (View.update Real.tan Real.cos Real.sin (fun z => (2:ℝ) ^ z)
      4 1 Real.pi unitLookAtR unitPerspectiveR unitMatMul
      { c1StateBase with m_zoom := (5/2 : ℝ) }).m_visibleTiles ∧
    trunc ({ c1StateBase with m_zoom := (5/2 : ℝ) } : ViewState ℝ Unit).m_zoom = 2 ∧
    maxTileIndexOf (fun z => (2:ℝ) ^ z)
      ({ c1StateBase with m_zoom := (5/2 : ℝ) } : ViewState ℝ Unit).m_zoom = 5 ∧
    ¬((TileID.mk 4 0 2).x < 2 ^ 2) := by
  have h1 := one_lt_sqrt_two
  have h2 := sqrt_two_lt_three_halves
  have hvt : (View.update Real.tan Real.cos Real.sin (fun z => (2:ℝ) ^ z)
      4 1 Real.pi unitLookAtR unitPerspectiveR unitMatMul
      { c1StateBase with m_zoom := (5/2 : ℝ) }).m_visibleTiles =
      (View.updateTiles Real.cos Real.sin (fun z => (2:ℝ) ^ z) 4
        (View.updateMatrices Real.tan Real.cos Real.sin (fun z => (2:ℝ) ^ z)
          4 1 Real.pi unitLookAtR unitPerspectiveR unitMatMul
          { c1StateBase with m_zoom := (5/2 : ℝ) })).m_visibleTiles := rfl
  set u := View.updateMatrices Real.tan Real.cos Real.sin (fun z => (2:ℝ) ^ z)
    4 1 Real.pi unitLookAtR unitPerspectiveR unitMatMul
    { c1StateBase with m_zoom := (5/2 : ℝ) } with hu
  have hzoom : u.m_zoom = 5/2 := by rw [hu]; rfl
  have hroll : u.m_roll = 0 := by rw [hu]; rfl
  have hposX : u.m_posX = 6 := by rw [hu]; rfl
  have hposY : u.m_posY = 0 := by rw [hu]; rfl
  have hheight : u.m_height = 4 * Real.sqrt 2 := by
    rw [hu]
    show ((4:ℤ):ℝ) * (2 * 4 * (2:ℝ) ^ (-(5/2 : ℝ))) / (1 * 1) = 4 * Real.sqrt 2
    rw [rpow_neg_five_halves]
    push_cast
    ring
  have hwidth : u.m_width = 4 * Real.sqrt 2 := by
    have h : u.m_width = u.m_height * 1 := by rw [hu]; rfl
    rw [h, hheight, mul_one]
  have hiz : trunc u.m_zoom = 2 := by
    rw [hzoom]
    simp only [trunc]
    norm_num
  have hts : tileSizeOf 4 u.m_zoom = 2 := by
    simp only [tileSizeOf]
    rw [hiz]
    norm_num
  have hmax : maxTileIndexOf (fun z => (2:ℝ) ^ z) u.m_zoom = 5 := by
    simp only [maxTileIndexOf]
    rw [hzoom]
    simp only [trunc]
    rw [if_pos (le_of_lt (Real.rpow_pos_of_pos (by norm_num) _))]
    exact floor_rpow_five_halves
  have hbw : boundWOf Real.cos Real.sin u = 4 * Real.sqrt 2 := by
    simp only [boundWOf]
    rw [hroll, hheight, hwidth, Real.sin_zero, Real.cos_zero, mul_zero, mul_one,
      abs_zero, zero_add]
    exact abs_of_nonneg (by positivity)
  have hbh : boundHOf Real.cos Real.sin u = 4 * Real.sqrt 2 := by
    simp only [boundHOf]
    rw [hroll, hheight, hwidth, Real.sin_zero, Real.cos_zero, mul_zero, mul_one,
      abs_zero, zero_add]
    exact abs_of_nonneg (by positivity)
  have hleft : leftEdgeOf Real.cos Real.sin 4 u = 10 - 2 * Real.sqrt 2 := by
    simp only [leftEdgeOf]
    rw [hposX, hbw]
    ring
  have hright : rightEdgeOf Real.cos Real.sin 4 u = 10 + 2 * Real.sqrt 2 := by
    simp only [rightEdgeOf, leftEdgeOf]
    rw [hposX, hbw]
    ring
  have hbottom : bottomEdgeOf Real.cos Real.sin 4 u = 4 - 2 * Real.sqrt 2 := by
    simp only [bottomEdgeOf]
    rw [hposY, hbh]
    ring
  have htop : topEdgeOf Real.cos Real.sin 4 u = 4 + 2 * Real.sqrt 2 := by
    simp only [topEdgeOf, bottomEdgeOf]
    rw [hposY, hbh]
    ring
  have hsx : startTileXOf Real.cos Real.sin 4 u = 3 := by
    simp only [startTileXOf]
    rw [hleft, hts]
    rw [show (10 - 2 * Real.sqrt 2) * (1/2) = 5 - Real.sqrt 2 by ring]
    rw [max_eq_right (by nlinarith)]
    simp only [trunc]
    rw [if_pos (by nlinarith)]
    rw [Int.floor_eq_iff]
    constructor
    · push_cast
      nlinarith
    · push_cast
      nlinarith
  have hry : resetTileYOf Real.cos Real.sin 4 u = 0 := by
    simp only [resetTileYOf]
    rw [hbottom, hts]
    have hin : trunc (4 - 2 * Real.sqrt 2) = 1 := by
      simp only [trunc]
      rw [if_pos (by nlinarith)]
      rw [Int.floor_eq_iff]
      constructor
      · push_cast
        nlinarith
      · push_cast
        nlinarith
    rw [hin]
    simp only [trunc]
    norm_num
  refine ⟨?_, hiz, hmax, by decide⟩
  rw [hvt, updateTiles_mem Real.cos Real.sin (fun z => (2:ℝ) ^ z) (by norm_num) u]
  refine ⟨hiz.symm ▸ rfl, ?_, ?_, ?_, ?_, ?_, ?_⟩
  · rw [hsx]
    norm_num
  · rw [hmax]
    norm_num
  · rw [hts, hright]
    push_cast
    nlinarith
  · rw [hsx, hry]
    norm_num
  · rw [hmax]
    norm_num
  · rw [hts, htop]
    push_cast
    nlinarith

/-! ### Claim C4: rotation and the size of the visible-tile set -/

/-- Growing the rotation-adjusted bounding box (same position and zoom) can
only add tiles to the visible set computed by updateTiles. -/
lemma updateTiles_subset {M : Type} (fcos fsin fpow2 : K → K) {hc : K} (hhc : 0 < hc)
    (s1 s2 : ViewState K M)
    (hpx : s1.m_posX = s2.m_posX) (hpy : s1.m_posY = s2.m_posY)
    (hz : s1.m_zoom = s2.m_zoom)
    (hbw : boundWOf fcos fsin s1 ≤ boundWOf fcos fsin s2)
    (hbh : boundHOf fcos fsin s1 ≤ boundHOf fcos fsin s2) :
    (View.updateTiles fcos fsin fpow2 hc s1).m_visibleTiles ⊆
      (View.updateTiles fcos fsin fpow2 hc s2).m_visibleTiles := by
  intro t ht
  rw [updateTiles_mem fcos fsin fpow2 hhc s1 t] at ht
  rw [updateTiles_mem fcos fsin fpow2 hhc s2 t]
  obtain ⟨h1, h2, h3, h4, h5, h6, h7⟩ := ht
  have hts1 : 0 < tileSizeOf hc s1.m_zoom := tileSizeOf_pos hhc _
  have htseq : tileSizeOf hc s2.m_zoom = tileSizeOf hc s1.m_zoom := by rw [hz]
  have hinv : 0 < 1 / tileSizeOf hc s1.m_zoom := by positivity
  have hleft : leftEdgeOf fcos fsin hc s2 ≤ leftEdgeOf fcos fsin hc s1 := by
    simp only [leftEdgeOf]
    rw [hpx]
    linarith
  have hright : rightEdgeOf fcos fsin hc s1 ≤ rightEdgeOf fcos fsin hc s2 := by
    simp only [rightEdgeOf, leftEdgeOf]
    rw [hpx]
    linarith
  have hbot : bottomEdgeOf fcos fsin hc s2 ≤ bottomEdgeOf fcos fsin hc s1 := by
    simp only [bottomEdgeOf]
    rw [hpy]
    linarith
  have htopm : topEdgeOf fcos fsin hc s1 ≤ topEdgeOf fcos fsin hc s2 := by
    simp only [topEdgeOf, bottomEdgeOf]
    rw [hpy]
    linarith
  have hsx : startTileXOf fcos fsin hc s2 ≤ startTileXOf fcos fsin hc s1 := by
    simp only [startTileXOf]
    rw [htseq]
    exact trunc_mono (max_le_max (le_refl 0)
      (mul_le_mul_of_nonneg_right hleft hinv.le))
  have hsy : startTileYOf fcos fsin hc s2 ≤ startTileYOf fcos fsin hc s1 := by
    simp only [startTileYOf]
    rw [htseq]
    exact trunc_mono (max_le_max (le_refl 0)
      (mul_le_mul_of_nonneg_right hbot hinv.le))
  have hry : resetTileYOf fcos fsin hc s2 ≤ resetTileYOf fcos fsin hc s1 := by
    simp only [resetTileYOf]
    rw [htseq]
    refine trunc_mono (mul_le_mul_of_nonneg_right ?_ hinv.le)
    exact_mod_cast trunc_mono hbot
  refine ⟨?_, le_trans hsx h2, ?_, ?_, ?_, ?_, ?_⟩
  · rw [← hz]
    exact h1
  · rw [← hz]
    exact h3
  · rw [htseq]
    exact lt_of_lt_of_le h4 hright
  · by_cases hcol2 : t.x = startTileXOf fcos fsin hc s2
    · rw [if_pos hcol2]
      have heq : startTileXOf fcos fsin hc s1 = t.x :=
        le_antisymm h2 (by rw [hcol2]; exact hsx)
      rw [if_pos heq.symm] at h5
      exact le_trans hsy h5
    · rw [if_neg hcol2]
      have hub : resetTileYOf fcos fsin hc s1 ≤ t.y := by
        by_cases hcol1 : t.x = startTileXOf fcos fsin hc s1
        · rw [if_pos hcol1] at h5
          exact le_trans (resetTileY_le_startTileY fcos fsin hhc s1) h5
        · rw [if_neg hcol1] at h5
          exact h5
      exact le_trans hry hub
  · rw [← hz]
    exact h6
  · rw [htseq]
    exact lt_of_lt_of_le h7 htopm

/-- sin + cos is monotone on [0, pi/4]. -/
lemma sin_add_cos_mono {r1 r2 : ℝ} (h0 : 0 ≤ r1) (h12 : r1 ≤ r2) (h24 : r2 ≤ Real.pi / 4) :
    Real.sin r1 + Real.cos r1 ≤ Real.sin r2 + Real.cos r2 := by
  have hpi := Real.pi_pos
  have key : ∀ r : ℝ, Real.sin r + Real.cos r = Real.sqrt 2 * Real.sin (r + Real.pi/4) := by
    intro r
    rw [Real.sin_add, Real.sin_pi_div_four, Real.cos_pi_div_four]
    have hs : Real.sqrt 2 * Real.sqrt 2 = 2 := Real.mul_self_sqrt (by norm_num)
    linear_combination (-(Real.sin r + Real.cos r)/2) * hs
  rw [key r1, key r2]
  have hmono : Real.sin (r1 + Real.pi/4) ≤ Real.sin (r2 + Real.pi/4) :=
    Real.sin_le_sin_of_le_of_le_pi_div_two (by linarith) (by linarith) (by linarith)
  exact mul_le_mul_of_nonneg_left hmono (Real.sqrt_nonneg 2)

/-- Claim C4 (amended): for a fixed position, zoom and screen size with a
square viewport (aspect ratio 1), increasing the roll from 0 toward pi/4
never decreases the number of tiles in the visible set computed by
update(): for 0 ≤ r1 ≤ r2 ≤ pi/4 the tile count at roll r2 is at least the
tile count at roll r1.  (For non-square viewports this fails, see the
counterexample.) -/
theorem c4_rotation_monotonic_square {M : Type} (ftan fpow2 : ℝ → ℝ) (hc ppt pi : ℝ)
    (hhc : 0 < hc)
    (glmLookAt : Vec3 ℝ → Vec3 ℝ → Vec3 ℝ → M) (glmPerspective : ℝ → ℝ → ℝ → ℝ → M)
    (matMul : M → M → M) (s : ViewState ℝ M) (hdirty : s.m_dirty = true)
    (haspect : s.m_aspect = 1) (r1 r2 : ℝ) (h0 : 0 ≤ r1) (h12 : r1 ≤ r2)
    (h24 : r2 ≤ Real.pi / 4) :
    ((View.update ftan Real.cos Real.sin fpow2 hc ppt pi glmLookAt glmPerspective matMul
        { s with m_roll := r1 }).m_visibleTiles).card ≤
    ((View.update ftan Real.cos Real.sin fpow2 hc ppt pi glmLookAt glmPerspective matMul
        { s with m_roll := r2 }).m_visibleTiles).card := by
  have hpi := Real.pi_pos
  have hv1 : (View.update ftan Real.cos Real.sin fpow2 hc ppt pi glmLookAt glmPerspective
      matMul { s with m_roll := r1 }).m_visibleTiles =
      (View.updateTiles Real.cos Real.sin fpow2 hc (View.updateMatrices ftan Real.cos
        Real.sin fpow2 hc ppt pi glmLookAt glmPerspective matMul
        { s with m_roll := r1 })).m_visibleTiles := by
    simp [View.update, hdirty]
  have hv2 : (View.update ftan Real.cos Real.sin fpow2 hc ppt pi glmLookAt glmPerspective
      matMul { s with m_roll := r2 }).m_visibleTiles =
      (View.updateTiles Real.cos Real.sin fpow2 hc (View.updateMatrices ftan Real.cos
        Real.sin fpow2 hc ppt pi glmLookAt glmPerspective matMul
        { s with m_roll := r2 })).m_visibleTiles := by
    simp [View.update, hdirty]
  rw [hv1, hv2]
  apply Finset.card_le_card
  set u1 := View.updateMatrices ftan Real.cos Real.sin fpow2 hc ppt pi glmLookAt
    glmPerspective matMul { s with m_roll := r1 } with hu1
  set u2 := View.updateMatrices ftan Real.cos Real.sin fpow2 hc ppt pi glmLookAt
    glmPerspective matMul { s with m_roll := r2 } with hu2
  have hh12 : u1.m_height = u2.m_height := by rw [hu1, hu2]; rfl
  have hw1 : u1.m_width = u1.m_height := by
    have h : u1.m_width = u1.m_height * s.m_aspect := by rw [hu1]; rfl
    rw [h, haspect, mul_one]
  have hw2 : u2.m_width = u2.m_height := by
    have h : u2.m_width = u2.m_height * s.m_aspect := by rw [hu2]; rfl
    rw [h, haspect, mul_one]
  have hroll1 : u1.m_roll = r1 := by rw [hu1]; rfl
  have hroll2 : u2.m_roll = r2 := by rw [hu2]; rfl
  have hsin1 : 0 ≤ Real.sin r1 := Real.sin_nonneg_of_nonneg_of_le_pi h0 (by linarith)
  have hsin2 : 0 ≤ Real.sin r2 :=
    Real.sin_nonneg_of_nonneg_of_le_pi (by linarith) (by linarith)
  have hcos1 : 0 ≤ Real.cos r1 := Real.cos_nonneg_of_mem_Icc ⟨by linarith, by linarith⟩
  have hcos2 : 0 ≤ Real.cos r2 := Real.cos_nonneg_of_mem_Icc ⟨by linarith, by linarith⟩
  have hmono := sin_add_cos_mono h0 h12 h24
  have hbw : boundWOf Real.cos Real.sin u1 ≤ boundWOf Real.cos Real.sin u2 := by
    simp only [boundWOf]
    rw [hroll1, hroll2, hw1, hw2, ← hh12]
    rw [abs_mul, abs_mul, abs_mul, abs_mul, abs_of_nonneg hsin1, abs_of_nonneg hsin2,
      abs_of_nonneg hcos1, abs_of_nonneg hcos2, ← mul_add, ← mul_add]
    exact mul_le_mul_of_nonneg_left hmono (abs_nonneg _)
  have hbh : boundHOf Real.cos Real.sin u1 ≤ boundHOf Real.cos Real.sin u2 := by
    simp only [boundHOf]
    rw [hroll1, hroll2, hw1, hw2, ← hh12]
    rw [abs_mul, abs_mul, abs_mul, abs_mul, abs_of_nonneg hsin1, abs_of_nonneg hsin2,
      abs_of_nonneg hcos1, abs_of_nonneg hcos2, ← mul_add, ← mul_add]
    exact mul_le_mul_of_nonneg_left hmono (abs_nonneg _)
  have hpx : u1.m_posX = u2.m_posX := by rw [hu1, hu2]; rfl
  have hpy : u1.m_posY = u2.m_posY := by rw [hu1, hu2]; rfl
  have hzz : u1.m_zoom = u2.m_zoom := by rw [hu1, hu2]; rfl
  exact updateTiles_subset Real.cos Real.sin fpow2 hhc u1 u2 hpx hpy hzz hbw hbh

/-- Witness for the amended C4 at a concrete square state, r1 = 0, r2 = pi/4. -/
theorem c4_rotation_monotonic_square_witness :
    (0:ℝ) < 1 ∧ testStateR.m_dirty = true ∧ testStateR.m_aspect = 1 ∧
    ((View.update Real.tan Real.cos Real.sin (fun z => (2:ℝ) ^ z) 1 1 Real.pi unitLookAtR
        unitPerspectiveR unitMatMul
        { testStateR with m_roll := (0:ℝ) }).m_visibleTiles).card ≤
    ((View.update Real.tan Real.cos Real.sin (fun z => (2:ℝ) ^ z) 1 1 Real.pi unitLookAtR
        unitPerspectiveR unitMatMul
        { testStateR with m_roll := Real.pi / 4 }).m_visibleTiles).card :=
  ⟨by norm_num, rfl, rfl,
   c4_rotation_monotonic_square Real.tan (fun z => (2:ℝ) ^ z) 1 1 Real.pi (by norm_num)
     unitLookAtR unitPerspectiveR unitMatMul testStateR rfl rfl 0 (Real.pi / 4)
     (le_refl 0) (by positivity) (le_refl _)⟩

/-- The camera state of the C4 counterexample: zoom 1, roll 0 (replaced by
pi/4 at the use site), position (-99, 100), 8×2 viewport (aspect ratio 4,
landscape), pixel scale 1.  With halfCircumference 200 and pixelsPerTile 8
the derived world extent is 200 × 50 and the tile size is 200. -/
def c4StateBase : ViewState ℝ Unit :=
  { testStateR with
    m_vpWidth := 8
    m_vpHeight := 2
    m_aspect := 4
    m_posX := -99
    m_posY := 100 }

set_option maxHeartbeats 2000000 in
/-- Counterexample to claim C4: for the landscape state c4StateBase (world
extent 200 × 50) the roll-0 visible set is {(0,0,1), (1,0,1)} but the
roll-pi/4 visible set is only {(0,0,1)}: the rotated bounding-box width
shrinks from 200 to 125 * sqrt 2 < 200 while the grown height stays inside
one tile row, so the tile count strictly decreases although |roll| increased
from 0 toward pi/4. -/
theorem c4_rotation_counterexample :
    ((View.update Real.tan Real.cos Real.sin (fun z => (2:ℝ) ^ z) 200 8 Real.pi
        unitLookAtR unitPerspectiveR unitMatMul
        { c4StateBase with m_roll := Real.pi / 4 }).m_visibleTiles).card <
    ((View.update Real.tan Real.cos Real.sin (fun z => (2:ℝ) ^ z) 200 8 Real.pi
        unitLookAtR unitPerspectiveR unitMatMul c4StateBase).m_visibleTiles).card := by
  have hs1 := one_lt_sqrt_two
  have hs2 := sqrt_two_lt_three_halves
  have hp1 : (2:ℝ) ^ (-(1:ℝ)) = 1/2 := by
    rw [show (-(1:ℝ)) = ((-1:ℤ):ℝ) by norm_num, Real.rpow_intCast]
    norm_num
  have hvtA : (View.update Real.tan Real.cos Real.sin (fun z => (2:ℝ) ^ z) 200 8 Real.pi
      unitLookAtR unitPerspectiveR unitMatMul
      { c4StateBase with m_roll := Real.pi / 4 }).m_visibleTiles =
      (View.updateTiles Real.cos Real.sin (fun z => (2:ℝ) ^ z) 200
        (View.updateMatrices Real.tan Real.cos Real.sin (fun z => (2:ℝ) ^ z) 200 8 Real.pi
          unitLookAtR unitPerspectiveR unitMatMul
          { c4StateBase with m_roll := Real.pi / 4 })).m_visibleTiles := rfl
  have hvtB : (View.update Real.tan Real.cos Real.sin (fun z => (2:ℝ) ^ z) 200 8 Real.pi
      unitLookAtR unitPerspectiveR unitMatMul c4StateBase).m_visibleTiles =
      (View.updateTiles Real.cos Real.sin (fun z => (2:ℝ) ^ z) 200
        (View.updateMatrices Real.tan Real.cos Real.sin (fun z => (2:ℝ) ^ z) 200 8 Real.pi
          unitLookAtR unitPerspectiveR unitMatMul c4StateBase)).m_visibleTiles := rfl
  set u2 := View.updateMatrices Real.tan Real.cos Real.sin (fun z => (2:ℝ) ^ z) 200 8
    Real.pi unitLookAtR unitPerspectiveR unitMatMul
    { c4StateBase with m_roll := Real.pi / 4 } with hu2
  set u1 := View.updateMatrices Real.tan Real.cos Real.sin (fun z => (2:ℝ) ^ z) 200 8
    Real.pi unitLookAtR unitPerspectiveR unitMatMul c4StateBase with hu1
  -- state u1 (roll 0)
  have hzoom1 : u1.m_zoom = 1 := by rw [hu1]; rfl
  have hroll1 : u1.m_roll = 0 := by rw [hu1]; rfl
  have hposX1 : u1.m_posX = -99 := by rw [hu1]; rfl
  have hposY1 : u1.m_posY = 100 := by rw [hu1]; rfl
  have hheight1 : u1.m_height = 50 := by
    rw [hu1]
    show ((2:ℤ):ℝ) * (2 * 200 * (2:ℝ) ^ (-(1:ℝ))) / (8 * 1) = 50
    rw [hp1]
    norm_num
  have hwidth1 : u1.m_width = 200 := by
    have h : u1.m_width = u1.m_height * 4 := by rw [hu1]; rfl
    rw [h, hheight1]
    norm_num
  have hiz1 : trunc u1.m_zoom = 1 := by
    rw [hzoom1]
    simp only [trunc]
    norm_num
  have hts1 : tileSizeOf 200 u1.m_zoom = 200 := by
    simp only [tileSizeOf]
    rw [hiz1]
    norm_num
  have hmax1 : maxTileIndexOf (fun z => (2:ℝ) ^ z) u1.m_zoom = 2 := by
    simp only [maxTileIndexOf]
    rw [hzoom1]
    simp only [Real.rpow_one, trunc]
    norm_num
  have hbw1 : boundWOf Real.cos Real.sin u1 = 200 := by
    simp only [boundWOf]
    rw [hroll1, hheight1, hwidth1, Real.sin_zero, Real.cos_zero]
    norm_num
  have hbh1 : boundHOf Real.cos Real.sin u1 = 50 := by
    simp only [boundHOf]
    rw [hroll1, hheight1, hwidth1, Real.sin_zero, Real.cos_zero]
    norm_num
  have hleft1 : leftEdgeOf Real.cos Real.sin 200 u1 = 1 := by
    simp only [leftEdgeOf]
    rw [hposX1, hbw1]
    norm_num
  have hright1 : rightEdgeOf Real.cos Real.sin 200 u1 = 201 := by
    simp only [rightEdgeOf]
    rw [hleft1, hbw1]
    norm_num
  have hbottom1 : bottomEdgeOf Real.cos Real.sin 200 u1 = 75 := by
    simp only [bottomEdgeOf]
    rw [hposY1, hbh1]
    norm_num
  have htop1 : topEdgeOf Real.cos Real.sin 200 u1 = 125 := by
    simp only [topEdgeOf]
    rw [hbottom1, hbh1]
    norm_num
  have hsx1 : startTileXOf Real.cos Real.sin 200 u1 = 0 := by
    simp only [startTileXOf]
    rw [hleft1, hts1]
    rw [max_eq_right (by norm_num : (0:ℝ) ≤ 1 * (1/200))]
    simp only [trunc]
    norm_num
  have hsy1 : startTileYOf Real.cos Real.sin 200 u1 = 0 := by
    simp only [startTileYOf]
    rw [hbottom1, hts1]
    rw [max_eq_right (by norm_num : (0:ℝ) ≤ 75 * (1/200))]
    simp only [trunc]
    norm_num
  have htr75 : trunc (75:ℝ) = 75 := by
    simp only [trunc]
    norm_num
  have hry1 : resetTileYOf Real.cos Real.sin 200 u1 = 0 := by
    simp only [resetTileYOf]
    rw [hbottom1, hts1, htr75]
    simp only [trunc]
    norm_num
  have hV1 : (View.updateTiles Real.cos Real.sin (fun z => (2:ℝ) ^ z) 200
      u1).m_visibleTiles = {TileID.mk 0 0 1, TileID.mk 1 0 1} := by
    ext t
    rw [updateTiles_mem Real.cos Real.sin (fun z => (2:ℝ) ^ z) (by norm_num) u1 t]
    rw [hsx1, hsy1, hry1, hmax1, hiz1, hts1, hright1, htop1]
    simp only [ite_self]
    constructor
    · rintro ⟨hz, hx0, hx2, hxr, hy0, hy2, hyt⟩
      have hxle : t.x ≤ 1 := by
        by_contra hgt
        push_neg at hgt
        have h2x : (2:ℝ) ≤ (t.x : ℝ) := by exact_mod_cast hgt
        nlinarith
      have hyle : t.y ≤ 0 := by
        by_contra hgt
        push_neg at hgt
        have h1y : (1:ℝ) ≤ (t.y : ℝ) := by exact_mod_cast hgt
        nlinarith
      simp only [Finset.mem_insert, Finset.mem_singleton]
      obtain ⟨tx, ty, tz⟩ := t
      simp only [TileID.mk.injEq]
      dsimp only at hz hx0 hxle hy0 hyle
      omega
    · intro hmem
      simp only [Finset.mem_insert, Finset.mem_singleton] at hmem
      rcases hmem with rfl | rfl
      · exact ⟨rfl, by norm_num, by norm_num, by norm_num, by norm_num, by norm_num,
          by norm_num⟩
      · exact ⟨rfl, by norm_num, by norm_num, by norm_num, by norm_num, by norm_num,
          by norm_num⟩
  -- state u2 (roll pi/4)
  have hzoom2 : u2.m_zoom = 1 := by rw [hu2]; rfl
  have hroll2 : u2.m_roll = Real.pi / 4 := by rw [hu2]; rfl
  have hposX2 : u2.m_posX = -99 := by rw [hu2]; rfl
  have hposY2 : u2.m_posY = 100 := by rw [hu2]; rfl
  have hheight2 : u2.m_height = 50 := by
    rw [hu2]
    show ((2:ℤ):ℝ) * (2 * 200 * (2:ℝ) ^ (-(1:ℝ))) / (8 * 1) = 50
    rw [hp1]
    norm_num
  have hwidth2 : u2.m_width = 200 := by
    have h : u2.m_width = u2.m_height * 4 := by rw [hu2]; rfl
    rw [h, hheight2]
    norm_num
  have hiz2 : trunc u2.m_zoom = 1 := by
    rw [hzoom2]
    simp only [trunc]
    norm_num
  have hts2 : tileSizeOf 200 u2.m_zoom = 200 := by
    simp only [tileSizeOf]
    rw [hiz2]
    norm_num
  have hmax2 : maxTileIndexOf (fun z => (2:ℝ) ^ z) u2.m_zoom = 2 := by
    simp only [maxTileIndexOf]
    rw [hzoom2]
    simp only [Real.rpow_one, trunc]
    norm_num
  have hbw2 : boundWOf Real.cos Real.sin u2 = 125 * Real.sqrt 2 := by
    simp only [boundWOf]
    rw [hroll2, hheight2, hwidth2, Real.sin_pi_div_four, Real.cos_pi_div_four,
      abs_of_nonneg (by positivity : (0:ℝ) ≤ 50 * (Real.sqrt 2 / 2)),
      abs_of_nonneg (by positivity : (0:ℝ) ≤ 200 * (Real.sqrt 2 / 2))]
    ring
  have hbh2 : boundHOf Real.cos Real.sin u2 = 125 * Real.sqrt 2 := by
    simp only [boundHOf]
    rw [hroll2, hheight2, hwidth2, Real.sin_pi_div_four, Real.cos_pi_div_four,
      abs_of_nonneg (by positivity : (0:ℝ) ≤ 200 * (Real.sqrt 2 / 2)),
      abs_of_nonneg (by positivity : (0:ℝ) ≤ 50 * (Real.sqrt 2 / 2))]
    ring
  have hleft2 : leftEdgeOf Real.cos Real.sin 200 u2 = 101 - 125 * Real.sqrt 2 / 2 := by
    simp only [leftEdgeOf]
    rw [hposX2, hbw2]
    ring
  have hright2 : rightEdgeOf Real.cos Real.sin 200 u2 = 101 + 125 * Real.sqrt 2 / 2 := by
    simp only [rightEdgeOf, leftEdgeOf]
    rw [hposX2, hbw2]
    ring
  have hbottom2 : bottomEdgeOf Real.cos Real.sin 200 u2 = 100 - 125 * Real.sqrt 2 / 2 := by
    simp only [bottomEdgeOf]
    rw [hposY2, hbh2]
    ring
  have htop2 : topEdgeOf Real.cos Real.sin 200 u2 = 100 + 125 * Real.sqrt 2 / 2 := by
    simp only [topEdgeOf, bottomEdgeOf]
    rw [hposY2, hbh2]
    ring
  have hsx2 : startTileXOf Real.cos Real.sin 200 u2 = 0 := by
    simp only [startTileXOf]
    rw [hleft2, hts2]
    rw [max_eq_right (by nlinarith : (0:ℝ) ≤ (101 - 125 * Real.sqrt 2 / 2) * (1/200))]
    simp only [trunc]
    rw [if_pos (by nlinarith)]
    rw [Int.floor_eq_iff]
    constructor
    · push_cast
      nlinarith
    · push_cast
      nlinarith
  have hsy2 : startTileYOf Real.cos Real.sin 200 u2 = 0 := by
    simp only [startTileYOf]
    rw [hbottom2, hts2]
    rw [max_eq_right (by nlinarith : (0:ℝ) ≤ (100 - 125 * Real.sqrt 2 / 2) * (1/200))]
    simp only [trunc]
    rw [if_pos (by nlinarith)]
    rw [Int.floor_eq_iff]
    constructor
    · push_cast
      nlinarith
    · push_cast
      nlinarith
  have hV2 : (View.updateTiles Real.cos Real.sin (fun z => (2:ℝ) ^ z) 200
      u2).m_visibleTiles = {TileID.mk 0 0 1} := by
    ext t
    rw [updateTiles_mem Real.cos Real.sin (fun z => (2:ℝ) ^ z) (by norm_num) u2 t]
    rw [hsx2, hsy2, hmax2, hiz2, hts2, hright2, htop2]
    constructor
    · rintro ⟨hz, hx0, hx2, hxr, hrow, hy2, hyt⟩
      have hxeq : t.x = 0 := by
        by_contra hne
        have hge : 1 ≤ t.x := by omega
        have h1x : (1:ℝ) ≤ (t.x : ℝ) := by exact_mod_cast hge
        nlinarith
      rw [if_pos hxeq] at hrow
      have hyeq : t.y = 0 := by
        have hyle : t.y ≤ 0 := by
          by_contra hgt
          push_neg at hgt
          have h1y : (1:ℝ) ≤ (t.y : ℝ) := by exact_mod_cast hgt
          nlinarith
        omega
      simp only [Finset.mem_singleton]
      obtain ⟨tx, ty, tz⟩ := t
      simp only [TileID.mk.injEq]
      dsimp only at hz hxeq hyeq
      exact ⟨hxeq, hyeq, hz⟩
    · intro hmem
      simp only [Finset.mem_singleton] at hmem
      subst hmem
      refine ⟨rfl, by norm_num, by norm_num, by nlinarith, ?_, by norm_num, by nlinarith⟩
      rw [if_pos rfl]
  rw [hvtA, hvtB, hV1, hV2]
  decide

end Tangram
